import Mathlib

/-!
# Verification of the DPG loss op (trfl/dpg_ops.py)

The repository holds a single function, `dpg`, implementing the
Deterministic Policy Gradient actor loss on top of a reverse-mode
automatic-differentiation engine.  We embed it shallowly:

* a tensor of shape `[B]` is a function `Fin B → ℝ`, a tensor of shape
  `[B, A]` is a function `Fin B → Fin A → ℝ`;
* the engine call `tf.gradients([q_max], [a_max])[0]` is modelled as an
  explicit argument `dqda0 : Option (Fin B → Fin A → ℝ)`, which is `none`
  exactly when `q_max` has no computable dependency on `a_max` (in which
  case the engine returns a null gradient);
* `raise ValueError` is modelled with `Except`: an error value is returned
  instead of a loss;
* `tf.stop_gradient` is the identity on forward values; its effect on
  differentiation is captured by a small expression language `Expr`
  with a `stopGrad` constructor and a reverse-mode partial derivative
  `pderiv`, mirroring the engine's treatment of the stop-gradient node.
-/

noncomputable section

/-- The two `ValueError`s raised by `dpg` (the spec calls them
`InvalidGraph` and `InvalidArgument`).  `nonPositiveClipping` carries
the offending clip magnitude, which the source interpolates into its
message. -/
inductive DpgError where
  | qNotFunctionOfA : DpgError
  | nonPositiveClipping : ℝ → DpgError

/-- The message of the missing-dependency error, from line 75 of
dpg_ops.py.  For `nonPositiveClipping` only the fixed prefix of the
formatted message is given; the interpolated magnitude is carried by
the constructor. -/
def DpgError.message : DpgError → String
  | .qNotFunctionOfA => "q_max needs to be a function of a_max"
  | .nonPositiveClipping _ => "dqda_clipping should be bigger than 0"

/-- `DPGExtra = collections.namedtuple("dpg_extra", ["q_max", "a_max", "dqda"])`. -/
structure DPGExtra (B A : ℕ) where
  q_max : Fin B → ℝ
  a_max : Fin B → Fin A → ℝ
  dqda : Fin B → Fin A → ℝ

/-- `base_ops.LossOutput`: a pair of the loss tensor and the extra record. -/
structure LossOutput (B A : ℕ) where
  loss : Fin B → ℝ
  extra : DPGExtra B A

/-- `tf.clip_by_value t lo hi = minimum (maximum t lo) hi`, applied
component-wise. -/
def clip_by_value (t lo hi : ℝ) : ℝ := min (max t lo) hi

/-- Sum of squares of one row (TensorFlow computes `reduce_sum(t * t)`). -/
def l2sum {A : ℕ} (row : Fin A → ℝ) : ℝ := ∑ j, row j * row j

/-- Euclidean norm of one row. -/
def l2norm {A : ℕ} (row : Fin A → ℝ) : ℝ := Real.sqrt (l2sum row)

/-- `tf.clip_by_norm t m` with `axes = -1`: per batch row, with
`l2sum = reduce_sum(t*t)`, `l2n = sqrt l2sum` when `l2sum > 0` else
`l2sum`, the output is `t * m / maximum l2n m`. -/
def clip_by_norm {B A : ℕ} (t : Fin B → Fin A → ℝ) (m : ℝ) :
    Fin B → Fin A → ℝ :=
  fun b j =>
    let s := l2sum (t b)
    let l2n := if 0 < s then Real.sqrt s else s
    t b j * m / max l2n m

/-- `tf.stop_gradient` on forward values: the identity.  Its gradient
semantics is modelled by `Expr.stopGrad` below. -/
def stop_gradient (x : ℝ) : ℝ := x

/-- Lines 87-94 of dpg_ops.py, after the gradient `dqda` has been
established: `target_a = stop_gradient (dqda + a_max)`,
`loss = 0.5 * reduce_sum (square (target_a - a_max), axis = -1)`, and
the extra record exposes the inputs and the (possibly clipped) `dqda`. -/
def dpgOutput {B A : ℕ} (q_max : Fin B → ℝ) (a_max : Fin B → Fin A → ℝ)
    (dqda : Fin B → Fin A → ℝ) : LossOutput B A :=
  let target_a := fun b j => stop_gradient (dqda b j + a_max b j)
  ⟨fun b => 0.5 * ∑ j, (target_a b j - a_max b j) ^ 2, ⟨q_max, a_max, dqda⟩⟩

/-- The `dpg` function of dpg_ops.py.  `dqda0` is the result of
`tf.gradients([q_max], [a_max])[0]`, `none` when `q_max` does not depend
on `a_max`.  The source's two `raise ValueError` statements become
`Except.error`. -/
def dpg {B A : ℕ} (q_max : Fin B → ℝ) (a_max : Fin B → Fin A → ℝ)
    (dqda0 : Option (Fin B → Fin A → ℝ)) (dqda_clipping : Option ℝ)
    (clip_norm : Bool) : Except DpgError (LossOutput B A) :=
  match dqda0 with
  | none => .error .qNotFunctionOfA
  | some g =>
    match dqda_clipping with
    | none => .ok (dpgOutput q_max a_max g)
    | some c =>
      if c ≤ 0 then .error (.nonPositiveClipping c)
      else if clip_norm then .ok (dpgOutput q_max a_max (clip_by_norm g c))
      else .ok (dpgOutput q_max a_max (fun b j => clip_by_value (g b j) (-1 * c) c))

/-- The gradient after the optional clipping of lines 78-85: unchanged
when no clip magnitude is given, clipped by norm or by value otherwise. -/
def clippedGrad {B A : ℕ} (g : Fin B → Fin A → ℝ) (dqda_clipping : Option ℝ)
    (clip_norm : Bool) : Fin B → Fin A → ℝ :=
  match dqda_clipping with
  | none => g
  | some c =>
    if clip_norm then clip_by_norm g c
    else fun b j => clip_by_value (g b j) (-1 * c) c

/-! ### Concrete inputs for witnesses and for the spec's worked example

Batch size 1, action dimension 2, candidate action `[1, 1]`, value
estimate the function `-‖a‖²` evaluated there, and its analytic
reverse-mode gradient `-2 * a = [-2, -2]` supplied as `dqda0`. -/

def a_ex : Fin 1 → Fin 2 → ℝ := fun _ _ => 1

def q_ex : Fin 1 → ℝ := fun b => -l2sum (a_ex b)

def g_ex : Fin 1 → Fin 2 → ℝ := fun b j => -2 * a_ex b j

def clip_ex : Fin 1 → Fin 2 → ℝ := fun b j => clip_by_value (g_ex b j) (-1 * 1) 1

/-! ### Theorems -/

/-- C2: when `q_max` has no computable dependency on `a_max` (the
engine's gradient is null), `dpg` raises the missing-dependency error
with the message that the value estimate needs to be a function of the
candidate action, and never returns a loss. -/
theorem dpg_no_dependency {B A : ℕ} (q : Fin B → ℝ) (a : Fin B → Fin A → ℝ)
    (dqda_clipping : Option ℝ) (clip_norm : Bool) :
    dpg q a none dqda_clipping clip_norm = .error .qNotFunctionOfA ∧
    DpgError.qNotFunctionOfA.message = "q_max needs to be a function of a_max" ∧
    ∀ out : LossOutput B A, dpg q a none dqda_clipping clip_norm ≠ .ok out := by
  refine ⟨rfl, rfl, fun out h => ?_⟩
  simp [dpg] at h

/-- C3: a supplied clip magnitude `m ≤ 0` raises the non-positive-clip
error (when the gradient exists), for both clipping modes. -/
theorem dpg_nonpositive_clipping {B A : ℕ} (q : Fin B → ℝ)
    (a : Fin B → Fin A → ℝ) (g : Fin B → Fin A → ℝ) (m : ℝ)
    (clip_norm : Bool) (h : m ≤ 0) :
    dpg q a (some g) (some m) clip_norm = .error (.nonPositiveClipping m) := by
  simp [dpg, if_pos h]

theorem dpg_nonpositive_clipping_witness :
    dpg q_ex a_ex (some g_ex) (some (-1)) false
      = .error (.nonPositiveClipping (-1)) :=
  dpg_nonpositive_clipping q_ex a_ex g_ex (-1) false (by norm_num)

/-- C9: when no clip magnitude is supplied, the `clip_norm` flag has no
effect on the result of `dpg`. -/
theorem dpg_clip_norm_flag_irrelevant {B A : ℕ} (q : Fin B → ℝ)
    (a : Fin B → Fin A → ℝ) (dqda0 : Option (Fin B → Fin A → ℝ))
    (n1 n2 : Bool) :
    dpg q a dqda0 none n1 = dpg q a dqda0 none n2 := by
  cases dqda0 <;> rfl

/-- C10: the dependency check precedes clip-magnitude validation: with a
null gradient and a non-positive clip magnitude, the error raised is the
missing-dependency one, not the non-positive-clip one. -/
theorem dpg_dependency_check_first {B A : ℕ} (q : Fin B → ℝ)
    (a : Fin B → Fin A → ℝ) (m : ℝ) (n : Bool) (h : m ≤ 0) :
    dpg q a none (some m) n = .error .qNotFunctionOfA ∧
    dpg q a none (some m) n ≠ .error (.nonPositiveClipping m) := by
  refine ⟨rfl, fun hc => ?_⟩
  rw [show dpg q a none (some m) n = Except.error DpgError.qNotFunctionOfA from rfl] at hc
  exact absurd (Except.error.inj hc) (fun hh => DpgError.noConfusion hh)

theorem dpg_dependency_check_first_witness :
    dpg q_ex a_ex none (some (-1)) false = .error .qNotFunctionOfA ∧
    dpg q_ex a_ex none (some (-1)) false ≠ .error (.nonPositiveClipping (-1)) :=
  dpg_dependency_check_first q_ex a_ex (-1) false (by norm_num)

/-- The loss produced by `dpgOutput` is half the sum of squares of the
`dqda` it is given: `target_a - a_max = dqda`. -/
theorem dpgOutput_loss {B A : ℕ} (q : Fin B → ℝ) (a : Fin B → Fin A → ℝ)
    (d : Fin B → Fin A → ℝ) (b : Fin B) :
    (dpgOutput q a d).loss b = 0.5 * ∑ j, d b j ^ 2 := by
  simp [dpgOutput, stop_gradient]

/-- On every successful path, `dpg` returns `dpgOutput` applied to the
clipped gradient. -/
theorem dpg_ok_eq {B A : ℕ} (q : Fin B → ℝ) (a : Fin B → Fin A → ℝ)
    (g : Fin B → Fin A → ℝ) (mc : Option ℝ) (n : Bool)
    (out : LossOutput B A) (h : dpg q a (some g) mc n = .ok out) :
    out = dpgOutput q a (clippedGrad g mc n) := by
  cases mc with
  | none =>
    simp only [dpg] at h
    cases h
    rfl
  | some c =>
    by_cases hc : c ≤ 0
    · simp [dpg, if_pos hc] at h
    · cases n <;>
        · simp only [dpg, if_neg hc, Bool.false_eq_true, if_false, if_true,
            Except.ok.injEq] at h
          rw [← h]
          simp [clippedGrad]

/-- C1: on every successful call, the loss of batch element `b` is
`0.5` times the sum over action dimensions of the squared (possibly
clipped) gradient, i.e. `0.5 * ‖dqda[b]‖²`, where `dqda` is the gradient
exposed in the extra record. -/
theorem dpg_loss_half_sq {B A : ℕ} (q : Fin B → ℝ) (a : Fin B → Fin A → ℝ)
    (g : Fin B → Fin A → ℝ) (mc : Option ℝ) (n : Bool)
    (out : LossOutput B A) (h : dpg q a (some g) mc n = .ok out) (b : Fin B) :
    out.loss b = 0.5 * ∑ j, out.extra.dqda b j ^ 2 := by
  rw [dpg_ok_eq q a g mc n out h]
  exact dpgOutput_loss q a (clippedGrad g mc n) b

theorem dpg_loss_half_sq_witness :
    (dpgOutput q_ex a_ex g_ex).loss 0
      = 0.5 * ∑ j, (dpgOutput q_ex a_ex g_ex).extra.dqda 0 j ^ 2 :=
  dpg_loss_half_sq q_ex a_ex g_ex none false (dpgOutput q_ex a_ex g_ex) rfl 0

/-- C4: with a strictly positive clip magnitude `m` and `clip_norm`
false, `dpg` succeeds with the component-wise clipped gradient; every
component of it lies in `[-m, m]`, it equals the exact clamp of the
unclipped gradient into `[-m, m]`, and components already inside the
interval are unchanged. -/
theorem dpg_clip_value_spec {B A : ℕ} (q : Fin B → ℝ)
    (a : Fin B → Fin A → ℝ) (g : Fin B → Fin A → ℝ) (m : ℝ) (h : 0 < m)
    (b : Fin B) (j : Fin A) :
    dpg q a (some g) (some m) false
      = .ok (dpgOutput q a (fun b j => clip_by_value (g b j) (-1 * m) m)) ∧
    -m ≤ clip_by_value (g b j) (-1 * m) m ∧
    clip_by_value (g b j) (-1 * m) m ≤ m ∧
    clip_by_value (g b j) (-1 * m) m = max (-m) (min (g b j) m) ∧
    (-m ≤ g b j → g b j ≤ m → clip_by_value (g b j) (-1 * m) m = g b j) := by
  have hm : ¬ m ≤ 0 := not_le.mpr h
  refine ⟨by simp [dpg, if_neg hm], ?_, ?_, ?_, ?_⟩
  · simp only [clip_by_value, neg_one_mul]
    exact le_min (le_max_right _ _) (neg_le_self h.le)
  · exact min_le_right _ _
  · simp only [clip_by_value, neg_one_mul]
    rw [max_min_distrib_left, max_eq_right (neg_le_self h.le),
      max_comm (-m) (g b j)]
  · intro h1 h2
    simp only [clip_by_value, neg_one_mul]
    rw [max_eq_left h1, min_eq_left h2]

theorem dpg_clip_value_spec_witness :
    dpg q_ex a_ex (some g_ex) (some 1) false
      = .ok (dpgOutput q_ex a_ex (fun b j => clip_by_value (g_ex b j) (-1 * 1) 1)) ∧
    -1 ≤ clip_by_value (g_ex 0 0) (-1 * 1) 1 ∧
    clip_by_value (g_ex 0 0) (-1 * 1) 1 ≤ 1 ∧
    clip_by_value (g_ex 0 0) (-1 * 1) 1 = max (-1) (min (g_ex 0 0) 1) ∧
    (-1 ≤ g_ex 0 0 → g_ex 0 0 ≤ 1 → clip_by_value (g_ex 0 0) (-1 * 1) 1 = g_ex 0 0) :=
  dpg_clip_value_spec q_ex a_ex g_ex 1 (by norm_num) 0 0

/-- C7: the spec's worked example.  With `valueEstimate = -‖a‖²` at
`a = [1, 1]` (batch 1, action dimension 2) and its analytic gradient
`[-2, -2]` as `dqda0`: without clipping `dpg` returns gradient
`[-2, -2]` and loss `4`; with component-wise clip magnitude `1` it
returns gradient `[-1, -1]` and loss `1`. -/
theorem dpg_worked_example :
    q_ex 0 = -(1 ^ 2 + 1 ^ 2) ∧
    dpg q_ex a_ex (some g_ex) none false = .ok (dpgOutput q_ex a_ex g_ex) ∧
    (dpgOutput q_ex a_ex g_ex).extra.dqda 0 0 = -2 ∧
    (dpgOutput q_ex a_ex g_ex).extra.dqda 0 1 = -2 ∧
    (dpgOutput q_ex a_ex g_ex).loss 0 = 4 ∧
    dpg q_ex a_ex (some g_ex) (some 1) false = .ok (dpgOutput q_ex a_ex clip_ex) ∧
    clip_ex 0 0 = -1 ∧ clip_ex 0 1 = -1 ∧
    (dpgOutput q_ex a_ex clip_ex).loss 0 = 1 := by
  refine ⟨?_, rfl, ?_, ?_, ?_, ?_, ?_, ?_, ?_⟩
  · simp [q_ex, a_ex, l2sum, Fin.sum_univ_two]
    norm_num
  · norm_num [dpgOutput, g_ex, a_ex]
  · norm_num [dpgOutput, g_ex, a_ex]
  · rw [dpgOutput_loss]
    norm_num [g_ex, a_ex, Fin.sum_univ_two]
  · simp only [dpg, if_neg (show ¬ (1 : ℝ) ≤ 0 by norm_num),
      Bool.false_eq_true, if_false]
    rfl
  · norm_num [clip_ex, clip_by_value, g_ex, a_ex, min_def, max_def]
  · norm_num [clip_ex, clip_by_value, g_ex, a_ex, min_def, max_def]
  · rw [dpgOutput_loss]
    norm_num [clip_ex, clip_by_value, g_ex, a_ex, Fin.sum_univ_two, min_def, max_def]

/-- C8: on every successful call, the extra record exposes the caller's
`q_max` and `a_max` unchanged, and its `dqda` field is the gradient
after the requested clipping. -/
theorem dpg_extra_spec {B A : ℕ} (q : Fin B → ℝ) (a : Fin B → Fin A → ℝ)
    (g : Fin B → Fin A → ℝ) (mc : Option ℝ) (n : Bool)
    (out : LossOutput B A) (h : dpg q a (some g) mc n = .ok out) :
    out.extra.q_max = q ∧ out.extra.a_max = a ∧
    out.extra.dqda = clippedGrad g mc n := by
  rw [dpg_ok_eq q a g mc n out h]
  exact ⟨rfl, rfl, rfl⟩

/-! ### Norm clipping (C5) -/

theorem l2sum_nonneg {A : ℕ} (row : Fin A → ℝ) : 0 ≤ l2sum row :=
  Finset.sum_nonneg fun j _ => mul_self_nonneg (row j)

/-- One row of `clip_by_norm`, written without `let`s. -/
def normClipRow {A : ℕ} (row : Fin A → ℝ) (m : ℝ) : Fin A → ℝ := fun j =>
  row j * m / max (if 0 < l2sum row then Real.sqrt (l2sum row) else l2sum row) m

theorem clip_by_norm_row {B A : ℕ} (t : Fin B → Fin A → ℝ) (m : ℝ)
    (b : Fin B) : clip_by_norm t m b = normClipRow (t b) m := rfl

theorem normClipRow_smul {A : ℕ} (row : Fin A → ℝ) (m : ℝ) (h : 0 < m) :
    ∃ c : ℝ, 0 < c ∧ ∀ j, normClipRow row m j = c * row j := by
  refine ⟨m / max (if 0 < l2sum row then Real.sqrt (l2sum row) else l2sum row) m,
    div_pos h (lt_of_lt_of_le h (le_max_right _ _)), fun j => ?_⟩
  simp only [normClipRow]
  ring

theorem sqrt_l2sum_le_max {A : ℕ} (row : Fin A → ℝ) (m : ℝ) (h : 0 < m) :
    Real.sqrt (l2sum row)
      ≤ max (if 0 < l2sum row then Real.sqrt (l2sum row) else l2sum row) m := by
  by_cases hp : 0 < l2sum row
  · rw [if_pos hp]
    exact le_max_left _ _
  · have hz : l2sum row = 0 := le_antisymm (not_lt.mp hp) (l2sum_nonneg row)
    rw [hz, Real.sqrt_zero]
    exact le_of_lt (lt_of_lt_of_le h (le_max_right _ _))

theorem normClipRow_norm_le {A : ℕ} (row : Fin A → ℝ) (m : ℝ) (h : 0 < m) :
    l2norm (normClipRow row m) ≤ m := by
  have hM : 0 < max (if 0 < l2sum row then Real.sqrt (l2sum row) else l2sum row) m :=
    lt_of_lt_of_le h (le_max_right _ _)
  have hfun : normClipRow row m
      = fun j => (m / max (if 0 < l2sum row then Real.sqrt (l2sum row)
          else l2sum row) m) * row j := by
    funext j
    simp only [normClipRow]
    ring
  have hsum : l2sum (normClipRow row m)
      = (m / max (if 0 < l2sum row then Real.sqrt (l2sum row)
          else l2sum row) m) ^ 2 * l2sum row := by
    rw [hfun]
    unfold l2sum
    rw [Finset.mul_sum]
    exact Finset.sum_congr rfl fun j _ => by ring
  rw [l2norm, hsum, Real.sqrt_mul (sq_nonneg _),
    Real.sqrt_sq (le_of_lt (div_pos h hM)), div_mul_eq_mul_div, div_le_iff₀ hM]
  exact mul_le_mul_of_nonneg_left (sqrt_l2sum_le_max row m h) h.le

theorem normClipRow_id {A : ℕ} (row : Fin A → ℝ) (m : ℝ) (h : 0 < m)
    (hle : l2norm row ≤ m) (j : Fin A) : normClipRow row m j = row j := by
  have hl2n : (if 0 < l2sum row then Real.sqrt (l2sum row) else l2sum row) ≤ m := by
    by_cases hp : 0 < l2sum row
    · rw [if_pos hp]
      exact hle
    · rw [if_neg hp, le_antisymm (not_lt.mp hp) (l2sum_nonneg row)]
      exact h.le
  rw [normClipRow, max_eq_right hl2n, mul_div_assoc, div_self (ne_of_gt h), mul_one]

theorem dpg_extra_spec_witness :
    (dpgOutput q_ex a_ex g_ex).extra.q_max = q_ex ∧
    (dpgOutput q_ex a_ex g_ex).extra.a_max = a_ex ∧
    (dpgOutput q_ex a_ex g_ex).extra.dqda = clippedGrad g_ex none false :=
  dpg_extra_spec q_ex a_ex g_ex none false (dpgOutput q_ex a_ex g_ex) rfl

/-- C5: with a strictly positive clip magnitude `m` and `clip_norm`
true, `dpg` succeeds with the norm-clipped gradient; each batch row of
it has L2 norm at most `m`, it is a positive scalar multiple of the
unclipped row (same direction), and rows whose unclipped norm is at
most `m` are returned unchanged. -/
theorem dpg_clip_norm_spec {B A : ℕ} (q : Fin B → ℝ) (a : Fin B → Fin A → ℝ)
    (g : Fin B → Fin A → ℝ) (m : ℝ) (h : 0 < m) (b : Fin B) :
    dpg q a (some g) (some m) true = .ok (dpgOutput q a (clip_by_norm g m)) ∧
    l2norm (clip_by_norm g m b) ≤ m ∧
    (∃ c : ℝ, 0 < c ∧ ∀ j, clip_by_norm g m b j = c * g b j) ∧
    (l2norm (g b) ≤ m → ∀ j, clip_by_norm g m b j = g b j) := by
  have hrow : clip_by_norm g m b = normClipRow (g b) m := clip_by_norm_row g m b
  refine ⟨by simp [dpg, not_le.mpr h], ?_, ?_, ?_⟩
  · rw [hrow]
    exact normClipRow_norm_le (g b) m h
  · obtain ⟨c, hc, hcj⟩ := normClipRow_smul (g b) m h
    exact ⟨c, hc, fun j => by rw [congrFun hrow j, hcj j]⟩
  · intro hle j
    rw [congrFun hrow j, normClipRow_id (g b) m h hle j]

theorem dpg_clip_norm_spec_witness :
    dpg q_ex a_ex (some g_ex) (some 1) true
      = .ok (dpgOutput q_ex a_ex (clip_by_norm g_ex 1)) ∧
    l2norm (clip_by_norm g_ex 1 0) ≤ 1 ∧
    (∃ c : ℝ, 0 < c ∧ ∀ j, clip_by_norm g_ex 1 0 j = c * g_ex 0 j) ∧
    (l2norm (g_ex 0) ≤ 1 → ∀ j, clip_by_norm g_ex 1 0 j = g_ex 0 j) :=
  dpg_clip_norm_spec q_ex a_ex g_ex 1 (by norm_num) 0

/-! ### Gradient flow through the stop-gradient node (C6)

A small differentiation-graph language mirroring the engine.  Variables
are the entries of `a_max`; `D b j` is the (arbitrary) sub-graph that
computes the clipped gradient entry `dqda[b, j]`, which in the real
graph runs through the Q network.  `eval` is forward evaluation,
`pderiv env v` the reverse-mode partial derivative with respect to the
variable `v`; a `stopGrad` node evaluates like its child but has
derivative zero, exactly as `tf.stop_gradient`. -/

inductive Expr (B A : ℕ) where
  | const : ℝ → Expr B A
  | var : Fin B → Fin A → Expr B A
  | add : Expr B A → Expr B A → Expr B A
  | sub : Expr B A → Expr B A → Expr B A
  | mul : Expr B A → Expr B A → Expr B A
  | stopGrad : Expr B A → Expr B A

def eval {B A : ℕ} (env : Fin B → Fin A → ℝ) : Expr B A → ℝ
  | .const r => r
  | .var b j => env b j
  | .add e1 e2 => eval env e1 + eval env e2
  | .sub e1 e2 => eval env e1 - eval env e2
  | .mul e1 e2 => eval env e1 * eval env e2
  | .stopGrad e => eval env e

def pderiv {B A : ℕ} (env : Fin B → Fin A → ℝ) (v : Fin B × Fin A) :
    Expr B A → ℝ
  | .const _ => 0
  | .var b j => if (b, j) = v then 1 else 0
  | .add e1 e2 => pderiv env v e1 + pderiv env v e2
  | .sub e1 e2 => pderiv env v e1 - pderiv env v e2
  | .mul e1 e2 => pderiv env v e1 * eval env e2 + eval env e1 * pderiv env v e2
  | .stopGrad _ => 0

/-- Sum of a list of graph nodes. -/
def sumE {B A : ℕ} (l : List (Expr B A)) : Expr B A := l.foldr .add (.const 0)

/-- Line 88-90 of dpg_ops.py as a graph:
`target_a = stop_gradient (dqda + a_max)`. -/
def targetActionE {B A : ℕ} (D : Fin B → Fin A → Expr B A) (b : Fin B)
    (j : Fin A) : Expr B A :=
  .stopGrad (.add (D b j) (.var b j))

/-- Line 92 of dpg_ops.py as a graph:
`loss b = 0.5 * reduce_sum (square (target_a - a_max))`. -/
def dpgLossE {B A : ℕ} (D : Fin B → Fin A → Expr B A) (b : Fin B) :
    Expr B A :=
  .mul (.const 0.5)
    (sumE ((List.finRange A).map fun j =>
      .mul (.sub (targetActionE D b j) (.var b j))
        (.sub (targetActionE D b j) (.var b j))))

theorem eval_sumE {B A : ℕ} (env : Fin B → Fin A → ℝ)
    (l : List (Expr B A)) : eval env (sumE l) = (l.map (eval env)).sum := by
  induction l with
  | nil => rfl
  | cons e t ih =>
    simp only [List.map_cons, List.sum_cons, ← ih]
    rfl

theorem pderiv_sumE {B A : ℕ} (env : Fin B → Fin A → ℝ)
    (v : Fin B × Fin A) (l : List (Expr B A)) :
    pderiv env v (sumE l) = (l.map (pderiv env v)).sum := by
  induction l with
  | nil => rfl
  | cons e t ih =>
    simp only [List.map_cons, List.sum_cons, ← ih]
    rfl

/-- C6: the loss graph is built from
`target_a = stopGrad (dqda + a_max)`.  The stop-gradient node has
partial derivative zero, so differentiating the loss with respect to an
action entry yields exactly the negated forward value of the (possibly
clipped) gradient entry: nothing propagates into `D` (hence not into
the Q network), and the forward value of the loss graph agrees with the
loss `dpg` returns. -/
theorem dpg_stop_gradient_spec {B A : ℕ} (D : Fin B → Fin A → Expr B A)
    (env : Fin B → Fin A → ℝ) (q : Fin B → ℝ) (b : Fin B) (j : Fin A)
    (v : Fin B × Fin A) :
    pderiv env v (targetActionE D b j) = 0 ∧
    pderiv env (b, j) (dpgLossE D b) = -(eval env (D b j)) ∧
    eval env (dpgLossE D b) = (dpgOutput q env (fun i k => eval env (D i k))).loss b := by
  refine ⟨rfl, ?_, ?_⟩
  · simp only [dpgLossE, pderiv, eval, pderiv_sumE, List.map_map, Function.comp_def,
      targetActionE, Prod.mk.injEq, true_and]
    rw [← Fin.sum_univ_def]
    have hterm : ∀ k : Fin A,
        ((0 : ℝ) - if k = j then 1 else 0) * (eval env (D b k) + env b k - env b k)
          + (eval env (D b k) + env b k - env b k) * (0 - if k = j then 1 else 0)
        = if k = j then -2 * eval env (D b k) else 0 := by
      intro k
      by_cases hk : k = j
      · rw [if_pos hk, if_pos hk]
        ring
      · rw [if_neg hk, if_neg hk]
        ring
    rw [Finset.sum_congr rfl fun k _ => hterm k, Finset.sum_ite_eq']
    simp only [Finset.mem_univ, if_true]
    ring
  · simp only [dpgLossE, eval, eval_sumE, List.map_map, Function.comp_def,
      targetActionE]
    rw [← Fin.sum_univ_def, dpgOutput_loss]
    refine congrArg (fun z => 0.5 * z) (Finset.sum_congr rfl fun k _ => by ring)

end
